import Mathlib

/-!
Verification of the document-chat-service core pipeline
(backend/app/utils/document_processing.py, backend/app/utils/file_parsers.py,
backend/prompts/document_qa_prompt.py).

The Python source is embedded shallowly: strings are Lean `String`
(sequences of unicode scalar values, matching CPython `str` code points for
all values the pipeline produces), byte blobs are `List Nat` with values
below 256, JSON-ish dynamic values are the `Json` inductive below, and
Python code that can raise is embedded in `Except String`.

Character-class helpers approximate CPython on the ASCII range, which is
the only range the concrete inputs of the development exercise.
-/

namespace DocChat

/-- ASCII whitespace, the subset of Python whitespace (str.strip, regex
class backslash-s) exercised by this development. -/
def isPyWhitespace (c : Char) : Bool :=
  c == ' ' || c == '\t' || c == '\n' || c == '\r' ||
  c == Char.ofNat 11 || c == Char.ofNat 12

/-- Sentence-ending punctuation used by the chunker regex. -/
def isSentenceEnd (c : Char) : Bool :=
  c == '.' || c == '!' || c == '?'

/-- Model of Python sep.join(xs) for a list of strings. -/
def joinSep (sep : String) : List String → String
  | [] => ""
  | [x] => x
  | x :: y :: xs => x ++ sep ++ joinSep sep (y :: xs)

/-- Worker for `pySplit`: scans the character list, cutting at each
leftmost non-overlapping occurrence of the separator (s0 :: srest).
The fuel argument is always called with at least the length of the scanned
list, so the exhaustion branch is unreachable; fuel keeps the recursion
structural so that closed instances evaluate inside the kernel. -/
def splitSepGo (s0 : Char) (srest : List Char) : Nat → List Char → List Char → List (List Char)
  | _, [], acc => [acc.reverse]
  | 0, l, acc => [acc.reverse ++ l]
  | fuel + 1, c :: rest, acc =>
    if (s0 :: srest).isPrefixOf (c :: rest) then
      acc.reverse :: splitSepGo s0 srest fuel (List.drop srest.length rest) []
    else
      splitSepGo s0 srest fuel rest (c :: acc)

/-- Model of Python s.split(sep) for a nonempty separator (the source only
splits on the two-character separator of a blank line). -/
def pySplit (s : String) (sep : String) : List String :=
  match sep.data with
  | [] => [s]
  | s0 :: srest => (splitSepGo s0 srest s.data.length s.data []).map fun cs => String.mk cs

/-- Model of Python s.strip(): drop leading and trailing whitespace. -/
def pyStrip (s : String) : String :=
  String.mk (((s.data.dropWhile isPyWhitespace).reverse.dropWhile isPyWhitespace).reverse)

/-- Paragraph extraction of chunk_document: split the text on blank lines,
strip each piece, and keep the nonempty ones
(document_processing.py line 65). -/
def paragraphs (content : String) : List String :=
  ((pySplit content "\n\n").map pyStrip).filter fun p => p != ""

/-- The greedy bin-packing loop shared by the paragraph tier
(document_processing.py lines 67-87) and the sentence tier (lines 119-138):
walks the items, flushing the running chunk exactly when appending the next
item would push the running character count over the budget and the running
chunk already has content. -/
def chunkLoop (sep : String) (chunkSize : Nat) :
    List String → List String → Nat → List String
  | [], current, _ =>
      if current = [] then [] else [joinSep sep current]
  | p :: ps, current, size =>
      if size + p.length > chunkSize ∧ current ≠ [] then
        joinSep sep current :: chunkLoop sep chunkSize ps [p] p.length
      else
        chunkLoop sep chunkSize ps (current ++ [p]) (size + p.length)

/-- Worker for the sentence splitter: model of
re.split applied to the pattern of a lookbehind for sentence punctuation
followed by a whitespace run (document_processing.py line 117).
prevEnd records whether the previous character was sentence punctuation;
on a split, the whole whitespace run is consumed. The fuel argument is
always called with at least the length of the character list, so the
exhaustion branch is unreachable. -/
def sentenceSplitGo : Nat → Bool → List Char → List Char → List String
  | _, _, acc, [] => [String.mk acc.reverse]
  | 0, _, acc, rest => [String.mk (acc.reverse ++ rest)]
  | fuel + 1, prevEnd, acc, c :: rest =>
      if prevEnd && isPyWhitespace c then
        String.mk acc.reverse ::
          sentenceSplitGo fuel false [] (rest.dropWhile isPyWhitespace)
      else
        sentenceSplitGo fuel (isSentenceEnd c) (c :: acc) rest

/-- Sentence splitting of the fallback tier: split on sentence-ending
punctuation followed by whitespace, keeping the punctuation attached to the
preceding sentence. -/
def splitSentences (content : String) : List String :=
  sentenceSplitGo content.data.length false [] content.data

/-- Embedding of _chunk_by_sentences (document_processing.py lines 96-141):
greedy packing of sentences with a single-space join; if nothing was
produced, the entire content is returned as one chunk. -/
def chunk_by_sentences (content : String) (chunkSize : Nat) : List String :=
  let chunks := chunkLoop " " chunkSize (splitSentences content) [] 0
  if chunks = [] then [content] else chunks

/-- Embedding of chunk_document (document_processing.py lines 38-93):
greedy packing of stripped paragraphs with a blank-line join, falling back
to sentence packing when the paragraph tier produced no chunks. -/
def chunk_document (content : String) (chunkSize : Nat) : List String :=
  let chunks := chunkLoop "\n\n" chunkSize (paragraphs content) [] 0
  if chunks = [] then chunk_by_sentences content chunkSize else chunks

/-- Sum of the character lengths of a list of strings: the quantity the
greedy loop tracks in current_size. -/
def sumLens : List String → Nat
  | [] => 0
  | x :: xs => x.length + sumLens xs

/-- First sentence of the concrete one-paragraph document used to exhibit
the unreachable sentence fallback. -/
def chunkC1S1 : String := "Alpha bravo charlie delta echo foxtrot golf."

/-- Second sentence of the concrete one-paragraph document. -/
def chunkC1S2 : String := "Hotel india juliet kilo lima mike nov."

/-- Third sentence of the concrete one-paragraph document. -/
def chunkC1S3 : String := "Oscar papa quebec romeo sierra tango."

/-- A 121-character document that is a single paragraph (no blank line
anywhere) made of three sentences, each at most 50 characters. -/
def chunkC1Text : String := chunkC1S1 ++ " " ++ chunkC1S2 ++ " " ++ chunkC1S3

/-- Dynamic JSON-like values flowing through the normalizer: the shape of
decoded remote responses and of the Any-typed Python values the source
manipulates. -/
inductive Json where
  | null
  | bool (b : Bool)
  | num (q : Rat)
  | str (s : String)
  | arr (xs : List Json)
  | obj (kvs : List (String × Json))

mutual

/-- Structural equality on dynamic values, modelling Python equality on
the JSON fragment. -/
def Json.beq : Json → Json → Bool
  | .null, .null => true
  | .bool a, .bool b => a == b
  | .num a, .num b => a == b
  | .str a, .str b => a == b
  | .arr a, .arr b => Json.beqList a b
  | .obj a, .obj b => Json.beqObj a b
  | _, _ => false

/-- Elementwise equality of value lists. -/
def Json.beqList : List Json → List Json → Bool
  | [], [] => true
  | x :: xs, y :: ys => Json.beq x y && Json.beqList xs ys
  | _, _ => false

/-- Elementwise equality of key-value lists. -/
def Json.beqObj : List (String × Json) → List (String × Json) → Bool
  | [], [] => true
  | (k1, v1) :: xs, (k2, v2) :: ys => k1 == k2 && Json.beq v1 v2 && Json.beqObj xs ys
  | _, _ => false

end

/-- First-match lookup in an object, modelling access on the unique keys
a Python dict maintains. -/
def lookupKey : List (String × Json) → String → Option Json
  | [], _ => none
  | (k', v) :: rest, k => if k' == k then some v else lookupKey rest k

/-- Python value.get(key, default): defined on dicts; any other receiver
raises AttributeError. -/
def pyGet (j : Json) (k : String) (default : Json) : Except String Json :=
  match j with
  | .obj kvs => .ok ((lookupKey kvs k).getD default)
  | _ => .error "AttributeError"

/-- Python iteration: lists yield their elements, dicts their keys,
strings their characters; other values raise TypeError. -/
def pyIter : Json → Except String (List Json)
  | .arr xs => .ok xs
  | .obj kvs => .ok (kvs.map fun kv => Json.str kv.1)
  | .str s => .ok (s.data.map fun c => Json.str (String.mk [c]))
  | _ => .error "TypeError"

/-- Model of Python str() on dynamic values: exact on strings, booleans,
None and integer-valued numbers, the only cases the pipeline payloads and
the theorems exercise; other reprs are abbreviated. -/
def pyStr : Json → String
  | .null => "None"
  | .bool b => if b then "True" else "False"
  | .num q => if q.den == 1 then toString q.num else toString q
  | .str s => s
  | .arr _ => "<list>"
  | .obj _ => "<dict>"

/-- Whether a value may serve as a dict key: Python hashability on the
JSON fragment, where lists and dicts are unhashable. -/
def hashableKey : Json → Bool
  | .arr _ => false
  | .obj _ => false
  | _ => true

/-- Python dict assignment d[k] = v: overwrite the value of an existing
equal key in place, else append the new entry at the end. -/
def dictSet (d : List (Json × Json)) (k v : Json) : List (Json × Json) :=
  match d with
  | [] => [(k, v)]
  | (k', v') :: rest =>
      if Json.beq k' k then (k, v) :: rest else (k', v') :: dictSet rest k v

/-- Loop body of _flatten_metadata (document_processing.py lines 266-276):
read key and value with defaults, unwrap a single-element list, join a
multi-element list with a comma-space after stringifying each element,
stringify a non-list value, then assign into the running dict (raising
TypeError on an unhashable key, as Python assignment would). -/
def flattenLoop : List Json → List (Json × Json) → Except String (List (Json × Json))
  | [], d => .ok d
  | item :: rest, d => do
      let key ← pyGet item "key" (Json.str "")
      let value ← pyGet item "value" (Json.arr [])
      let v : Json :=
        match value with
        | .arr [x] => x
        | .arr xs => Json.str (joinSep ", " (xs.map pyStr))
        | other => Json.str (pyStr other)
      if hashableKey key then
        flattenLoop rest (dictSet d key v)
      else
        .error "TypeError"

/-- Embedding of _flatten_metadata (document_processing.py lines 253-277). -/
def flatten_metadata (metadataList : Json) : Except String (List (Json × Json)) := do
  let items ← pyIter metadataList
  flattenLoop items []

/-- Embedding of _extract_score (document_processing.py lines 238-250):
walk searchScores, then aggregatedScore, then value, each with a default
that makes the next step yield its own default, bottoming out at 0.0. -/
def extract_score (chunk : Json) : Except String Json := do
  let searchScores ← pyGet chunk "searchScores" (Json.obj [])
  let aggregatedScore ← pyGet searchScores "aggregatedScore" (Json.obj [])
  pyGet aggregatedScore "value" (Json.num 0)

/-- The flat record the normalizer emits per chunk
(document_processing.py lines 231-235). -/
structure NormalizedChunk where
  content : Json
  score : Json
  metadata : List (Json × Json)

/-- Embedding of _transform_chunk (document_processing.py lines 221-235). -/
def transform_chunk (chunk : Json) : Except String NormalizedChunk := do
  let content ← pyGet chunk "content" (Json.str "")
  let score ← extract_score chunk
  let rawMeta ← pyGet chunk "metadata" (Json.arr [])
  let metadata ← flatten_metadata rawMeta
  pure ⟨content, score, metadata⟩

/-- Sequential flat-map in the error monad, modelling a Python for loop
that extends an accumulator and propagates the first exception. -/
def flatMapE (f : Json → Except String (List Json)) : List Json → Except String (List Json)
  | [] => .ok []
  | x :: xs => do
      let ys ← f x
      let rest ← flatMapE f xs
      pure (ys ++ rest)

/-- Chunks of one document: document.get("chunks", []), iterated by
list.extend (document_processing.py lines 216-217). -/
def chunksOfDocument (document : Json) : Except String (List Json) := do
  let cs ← pyGet document "chunks" (Json.arr [])
  pyIter cs

/-- Chunks under one repository result (document_processing.py lines
213-217). -/
def chunksOfRepoResult (repoResult : Json) : Except String (List Json) := do
  let dataRepo ← pyGet repoResult "dataRepository" (Json.obj [])
  let documents ← pyGet dataRepo "documents" (Json.arr [])
  let docList ← pyIter documents
  flatMapE chunksOfDocument docList

/-- Chunks under one filter result (document_processing.py lines 212-217). -/
def chunksOfFilterResult (filterResult : Json) : Except String (List Json) := do
  let inner ← pyGet filterResult "results" (Json.arr [])
  let repoResults ← pyIter inner
  flatMapE chunksOfRepoResult repoResults

/-- Embedding of _extract_raw_chunks_from_results (document_processing.py
lines 201-218). -/
def extract_raw_chunks_from_results (results : Json) : Except String (List Json) := do
  let filterResults ← pyIter results
  flatMapE chunksOfFilterResult filterResults

/-- Sequential map in the error monad, modelling the list comprehension of
document_processing.py line 198. -/
def mapTransform : List Json → Except String (List NormalizedChunk)
  | [] => .ok []
  | x :: xs => do
      let y ← transform_chunk x
      let ys ← mapTransform xs
      pure (y :: ys)

/-- Embedding of extract_chunks_from_response (document_processing.py
lines 144-198), the normalizer. The input is the decoded response object,
per the Dict annotation of the source; the optional logger only logs. -/
def extract_chunks_from_response (resultData : List (String × Json)) :
    Except String (List NormalizedChunk) :=
  match lookupKey resultData "results" with
  | none => .ok []
  | some results => do
      let raw ← extract_raw_chunks_from_results results
      mapTransform raw

/-- Chunk entries of the ingest payload (document_processing.py lines
357-366): each chunk content carries its own chunk_index metadata entry;
the Nat argument models the running index of enumerate. -/
def chunkEntries : List String → Nat → List Json
  | [], _ => []
  | c :: cs, idx =>
      Json.obj [("content", Json.str c),
        ("metadata", Json.arr [Json.obj
          [("key", Json.str "chunk_index"),
           ("value", Json.arr [Json.str (toString idx)])]])]
        :: chunkEntries cs (idx + 1)

/-- Embedding of build_document_payload (document_processing.py lines
301-370). The optional extra metadata reproduces the Python truthiness
test: None and the empty dict both contribute nothing. -/
def build_document_payload (documentName : String) (chunks : List String)
    (metadata : Option (List (String × Json))) : List (String × Json) :=
  let metadataItems : List Json :=
    [Json.obj [("key", Json.str "name"), ("value", Json.arr [Json.str documentName])],
     Json.obj [("key", Json.str "source"), ("value", Json.arr [Json.str "user_upload"])]] ++
    (match metadata with
     | none => []
     | some m =>
        if m.isEmpty then []
        else m.map fun kv =>
          Json.obj [("key", Json.str kv.1), ("value", Json.arr [Json.str (pyStr kv.2)])])
  let documents : Json :=
    Json.arr [Json.obj [("metadata", Json.arr metadataItems),
      ("chunks", Json.arr (chunkEntries chunks 0))]]
  [("documents", documents)]

/-- Synthetic search result of the round-trip claim: wraps the documents
of an ingest payload in the nesting the search API uses. Modelled from
the spec: the round-trip scenario of section 8 normalizes a synthetic
search result built from the payload. -/
def syntheticSearchResult (payload : List (String × Json)) : List (String × Json) :=
  [("results", Json.arr [Json.obj [("results", Json.arr [Json.obj
    [("dataRepository", Json.obj
      [("documents", (lookupKey payload "documents").getD (Json.arr []))])]])]])]

/-- The normalized chunks the round-trip claim expects: contents in input
order, score defaulted, and chunk_index metadata recording the 0-based
position as a string. Modelled from the spec wording of the round-trip
property. -/
def expectedRoundTrip : List String → Nat → List NormalizedChunk
  | [], _ => []
  | c :: cs, idx =>
      ⟨Json.str c, Json.num 0, [(Json.str "chunk_index", Json.str (toString idx))]⟩
        :: expectedRoundTrip cs (idx + 1)

/-- One apostrophe character, kept out of the string literals. -/
def apos : String := String.mk [Char.ofNat 39]

/-- Literal text of the QA template before the context field
(document_qa_prompt.py lines 8-11). -/
def promptPre : String :=
  "You are a helpful assistant that answers questions based on the provided document context.\n\nContext from documents:\n"

/-- Literal text of the QA template between the context and query fields. -/
def promptMid : String := "\n\nUser question: "

/-- Literal text of the QA template after the query field
(document_qa_prompt.py lines 14-22). -/
def promptPost : String :=
  "\n\nInstructions:\n- Answer the question based ONLY on the information provided in the context above\n- If the context doesn" ++ apos ++
  "t contain enough information to answer the question, say so clearly\n- Be concise and accurate\n- Cite specific parts of the context when relevant\n\nAnswer:\n"

/-- The instruction template DOCUMENT_QA_SYSTEM_PROMPT
(document_qa_prompt.py lines 8-22), with its two format fields. -/
def DOCUMENT_QA_SYSTEM_PROMPT : String :=
  promptPre ++ "{context}" ++ promptMid ++ "{query}" ++ promptPost

/-- Python template.format(context=..., query=...) for a template that
uses each of its two fields exactly once in this order: the template
literal is cut at the fields and the arguments are spliced in; spliced
text is never rescanned, matching str.format. -/
def formatContextQuery (template ctx q : String) : String :=
  match pySplit template "{context}" with
  | [a, b] =>
      match pySplit b "{query}" with
      | [c, d] => a ++ ctx ++ c ++ q ++ d
      | _ => template
  | _ => template

/-- Context blocks of format_document_qa_prompt (document_processing.py
lines 27-30): each chunk rendered under its 1-based number, in supplied
order; the f-string stringifies the content field. -/
def contextBlocks : List NormalizedChunk → Nat → List String
  | [], _ => []
  | c :: cs, idx =>
      ("[Document chunk " ++ toString (idx + 1) ++ "]:\n" ++ pyStr c.content)
        :: contextBlocks cs (idx + 1)

/-- Embedding of format_document_qa_prompt (document_processing.py lines
16-35); build_llm_prompt (line 298) delegates to it unchanged. -/
def format_document_qa_prompt (chunks : List NormalizedChunk) (query : String) : String :=
  formatContextQuery DOCUMENT_QA_SYSTEM_PROMPT
    (joinSep "\n\n" (contextBlocks chunks 0)) query

/-- Spec-side rendering for the prompt claim: blocks numbered upward from
a starting number. Modelled from the spec wording: one-indexed explicitly
numbered blocks in the exact supplied order. -/
def specNumberedBlocks : Nat → List NormalizedChunk → List String
  | _, [] => []
  | n, c :: cs =>
      ("[Document chunk " ++ toString n ++ "]:\n" ++ pyStr c.content)
        :: specNumberedBlocks (n + 1) cs

/-- UTF-8 encoding of one unicode scalar value, as byte values below 256. -/
def utf8EncodeChar (c : Char) : List Nat :=
  let n := c.toNat
  if n < 0x80 then [n]
  else if n < 0x800 then
    [0xC0 + n / 0x40, 0x80 + n % 0x40]
  else if n < 0x10000 then
    [0xE0 + n / 0x1000, 0x80 + n / 0x40 % 0x40, 0x80 + n % 0x40]
  else
    [0xF0 + n / 0x40000, 0x80 + n / 0x1000 % 0x40, 0x80 + n / 0x40 % 0x40, 0x80 + n % 0x40]

/-- UTF-8 encoding of a character list. -/
def utf8EncodeList : List Char → List Nat
  | [] => []
  | c :: cs => utf8EncodeChar c ++ utf8EncodeList cs

/-- UTF-8 encoding of a string: the byte blob CPython produces for it. -/
def utf8Encode (s : String) : List Nat := utf8EncodeList s.data

/-- A UTF-8 continuation byte. -/
def isContByte (b : Nat) : Bool := 0x80 ≤ b && b < 0xC0

/-- Strict decoding of one UTF-8 scalar from the head of a byte list,
rejecting - as CPython strict decoding does - stray continuation bytes,
overlong forms, surrogates, and values beyond 0x10FFFF. Returns the
scalar and the remaining bytes. -/
def utf8DecodeChar : List Nat → Option (Char × List Nat)
  | [] => none
  | b1 :: rest =>
    if b1 < 0x80 then some (Char.ofNat b1, rest)
    else if b1 < 0xC2 then none
    else if b1 < 0xE0 then
      match rest with
      | b2 :: rest2 =>
        if isContByte b2 then
          some (Char.ofNat ((b1 - 0xC0) * 0x40 + (b2 - 0x80)), rest2)
        else none
      | [] => none
    else if b1 < 0xF0 then
      match rest with
      | b2 :: b3 :: rest3 =>
        if isContByte b2 && isContByte b3 then
          let n := (b1 - 0xE0) * 0x1000 + (b2 - 0x80) * 0x40 + (b3 - 0x80)
          if n < 0x800 then none
          else if 0xD800 ≤ n ∧ n < 0xE000 then none
          else some (Char.ofNat n, rest3)
        else none
      | _ => none
    else if b1 < 0xF5 then
      match rest with
      | b2 :: b3 :: b4 :: rest4 =>
        if isContByte b2 && isContByte b3 && isContByte b4 then
          let n := (b1 - 0xF0) * 0x40000 + (b2 - 0x80) * 0x1000 +
            (b3 - 0x80) * 0x40 + (b4 - 0x80)
          if n < 0x10000 then none
          else if 0x110000 ≤ n then none
          else some (Char.ofNat n, rest4)
        else none
      | _ => none
    else none

/-- Fuel-driven strict decoding of a whole byte list; the fuel is always
called with at least the number of bytes, which makes the zero-fuel
nonempty branch unreachable. -/
def utf8DecodeList : Nat → List Nat → Option (List Char)
  | 0, l => if l = [] then some [] else none
  | fuel + 1, l =>
    if l = [] then some []
    else
      match utf8DecodeChar l with
      | none => none
      | some (c, rest) =>
        match utf8DecodeList fuel rest with
        | none => none
        | some cs => some (c :: cs)

/-- Strict UTF-8 decoding of a byte list into a string: succeeds exactly
on well-formed UTF-8, the acceptance set of CPython bytes.decode(utf-8). -/
def utf8Decode (bytes : List Nat) : Option String :=
  (utf8DecodeList bytes.length bytes).map fun cs => String.mk cs

/-- ASCII lowercasing, the fragment of Python str.lower the filenames of
this development exercise. -/
def pyLower (s : String) : String := String.mk (s.data.map Char.toLower)

/-- The routing test of extract_text_from_upload (file_parsers.py lines
42-45): an empty filename is replaced by untitled (Python truthiness),
then the lowercased name is tested for the .pdf suffix. -/
def pdfRoute (filename : String) : Bool :=
  (".pdf".data).isSuffixOf
    (pyLower (if filename.data.isEmpty then "untitled" else filename)).data

/-- Embedding of _decode_text_file (file_parsers.py lines 52-72): strict
UTF-8 decoding, any decode failure reported as the ValueError message. -/
def decode_text_file (content : List Nat) : Except String String :=
  match utf8Decode content with
  | some s => .ok s
  | none => .error "File must be a text document (UTF-8 encoded) or a PDF file"

/-- Embedding of extract_text_from_upload (file_parsers.py lines 18-49).
The PDF branch delegates to the pypdf-backed extractor, which lives
outside the embedded source and is therefore a parameter; every claim
settled here is independent of it. -/
def extract_text_from_upload (pdfExtractor : List Nat → Except String String)
    (filename : String) (content : List Nat) : Except String String :=
  if pdfRoute filename then pdfExtractor content
  else decode_text_file content

/-- Whether a dynamic value is a string. -/
def isJsonString : Json → Bool
  | .str _ => true
  | _ => false

/-! ## Theorems -/

theorem joinSep_cons_ne (sep x : String) (L : List String) (h : L ≠ []) :
    joinSep sep (x :: L) = x ++ sep ++ joinSep sep L := by
  cases L with
  | nil => exact absurd rfl h
  | cons y ys => rfl

theorem joinSep_append (sep : String) (a b : List String) (ha : a ≠ []) (hb : b ≠ []) :
    joinSep sep (a ++ b) = joinSep sep a ++ sep ++ joinSep sep b := by
  induction a with
  | nil => exact absurd rfl ha
  | cons x xs ih =>
    cases xs with
    | nil =>
      simp only [List.singleton_append]
      rw [joinSep_cons_ne sep x b hb]
      rfl
    | cons y ys =>
      have h1 : y :: ys ≠ ([] : List String) := by simp
      have h2 : (y :: ys : List String) ++ b ≠ [] := by simp
      rw [List.cons_append, joinSep_cons_ne sep x _ h2, ih h1,
        joinSep_cons_ne sep x _ h1]
      simp [String.append_assoc]

theorem chunkLoop_ne_nil (sep : String) (N : Nat) :
    ∀ (ps cur : List String) (sz : Nat), cur ≠ [] ∨ ps ≠ [] →
      chunkLoop sep N ps cur sz ≠ [] := by
  intro ps
  induction ps with
  | nil =>
    intro cur sz h
    rcases h with h | h
    · simp [chunkLoop, h]
    · exact absurd rfl h
  | cons p ps ih =>
    intro cur sz _
    simp only [chunkLoop]
    split
    · simp
    · exact ih (cur ++ [p]) (sz + p.length) (Or.inl (by simp))

theorem joinSep_chunkLoop (sep : String) (N : Nat) :
    ∀ (ps cur : List String) (sz : Nat), cur ≠ [] ∨ ps ≠ [] →
      joinSep sep (chunkLoop sep N ps cur sz) = joinSep sep (cur ++ ps) := by
  intro ps
  induction ps with
  | nil =>
    intro cur sz h
    rcases h with h | h
    · simp [chunkLoop, h, joinSep]
    · exact absurd rfl h
  | cons p ps ih =>
    intro cur sz h
    simp only [chunkLoop]
    split
    · next hc =>
      have hrec : chunkLoop sep N ps [p] p.length ≠ [] :=
        chunkLoop_ne_nil sep N ps [p] p.length (Or.inl (by simp))
      rw [joinSep_cons_ne sep _ _ hrec, ih [p] p.length (Or.inl (by simp)),
        joinSep_append sep cur (p :: ps) hc.2 (by simp)]
      rfl
    · rw [ih (cur ++ [p]) (sz + p.length) (Or.inl (by simp))]
      simp

theorem chunkLoop_all_fit (sep : String) (N : Nat) :
    ∀ (ps cur : List String) (sz : Nat), sz + sumLens ps ≤ N →
      cur ≠ [] ∨ ps ≠ [] →
      chunkLoop sep N ps cur sz = [joinSep sep (cur ++ ps)] := by
  intro ps
  induction ps with
  | nil =>
    intro cur sz _ h
    rcases h with h | h
    · simp [chunkLoop, h]
    · exact absurd rfl h
  | cons p ps ih =>
    intro cur sz hsum _
    have hle : sz + p.length + sumLens ps ≤ N := by
      simp only [sumLens] at hsum
      omega
    have hcond : ¬(sz + p.length > N ∧ cur ≠ []) := fun hc => absurd hc.1 (by omega)
    simp only [chunkLoop]
    rw [if_neg hcond, ih (cur ++ [p]) (sz + p.length) (by omega) (Or.inl (by simp))]
    simp

set_option maxRecDepth 20000 in
/-- C1: the claim states that a single over-long paragraph with no blank
line makes chunk_document fall through to sentence-level packing with
chunks bounded by the target size. The code contradicts this (and its own
docstring and comments): the fallback guard only fires when the paragraph
list is empty, so a 121-character single paragraph with target size 50 is
returned whole as one oversized chunk, while the sentence tier, had it
run, would have produced three chunks of at most 50 characters. -/
theorem chunk_document_c1_no_sentence_fallback :
    paragraphs chunkC1Text = [chunkC1Text] ∧
    chunk_document chunkC1Text 50 = [chunkC1Text] ∧
    chunkC1Text.length = 121 ∧ 50 < chunkC1Text.length ∧
    chunk_by_sentences chunkC1Text 50 = [chunkC1S1, chunkC1S2, chunkC1S3] ∧
    chunkC1S1.length ≤ 50 ∧ chunkC1S2.length ≤ 50 ∧ chunkC1S3.length ≤ 50 := by
  refine ⟨?_, ?_, by decide, by decide, ?_, by decide, by decide, by decide⟩
  · decide
  · decide
  · decide

/-- C2: whenever the paragraph sizes of a text sum to at most the target
size (and there is at least one paragraph), chunk_document returns a
single chunk joining all paragraphs with a blank line, because the greedy
packer only flushes when the running count plus the next paragraph size
would exceed the budget. -/
theorem chunk_document_c2_merge_under_budget (content : String) (N : Nat)
    (hne : paragraphs content ≠ []) (hsum : sumLens (paragraphs content) ≤ N) :
    chunk_document content N = [joinSep "\n\n" (paragraphs content)] := by
  have hfit := chunkLoop_all_fit "\n\n" N (paragraphs content) [] 0
    (by simpa using hsum) (Or.inr hne)
  simp only [List.nil_append] at hfit
  simp [chunk_document, hfit]

/-- Witness for C2 at the concrete scenario of the spec: the three short
paragraphs merge into one blank-line-joined chunk under a 100 budget. -/
theorem chunk_document_c2_witness :
    paragraphs "Para one.\n\nPara two.\n\nPara three." ≠ [] ∧
    sumLens (paragraphs "Para one.\n\nPara two.\n\nPara three.") ≤ 100 ∧
    chunk_document "Para one.\n\nPara two.\n\nPara three." 100 =
      ["Para one.\n\nPara two.\n\nPara three."] :=
  ⟨by decide, by decide,
    (chunk_document_c2_merge_under_budget _ _ (by decide) (by decide)).trans (by decide)⟩

/-- C3: for a text with at least two paragraphs, rejoining the produced
chunks with the blank-line separator reconstructs the blank-line join of
the original paragraph sequence exactly; no characters are dropped or
duplicated by the packer. -/
theorem chunk_document_c3_rejoin (content : String) (N : Nat)
    (h2 : 2 ≤ (paragraphs content).length) :
    joinSep "\n\n" (chunk_document content N) = joinSep "\n\n" (paragraphs content) := by
  have hne : paragraphs content ≠ [] := by
    intro h
    rw [h] at h2
    simp at h2
  have hnn := chunkLoop_ne_nil "\n\n" N (paragraphs content) [] 0 (Or.inr hne)
  have hjoin := joinSep_chunkLoop "\n\n" N (paragraphs content) [] 0 (Or.inr hne)
  simp only [List.nil_append] at hjoin
  simp [chunk_document, hnn, hjoin]

/-- Witness for C3 at a concrete three-paragraph text with a budget of 1,
which forces every paragraph into its own chunk before rejoining. -/
theorem chunk_document_c3_witness :
    2 ≤ (paragraphs "A\n\nB\n\nC").length ∧
    joinSep "\n\n" (chunk_document "A\n\nB\n\nC" 1) = "A\n\nB\n\nC" :=
  ⟨by decide, (chunk_document_c3_rejoin "A\n\nB\n\nC" 1 (by decide)).trans (by decide)⟩

/-- C9: chunk_document never returns the empty list: with at least one
paragraph the greedy loop emits at least one chunk, and otherwise the
sentence fallback runs, whose own final guard returns the entire original
content as a single chunk; in particular, when there are no non-whitespace
paragraphs and the sentence splitter finds no boundary, the result is
exactly the original input as one chunk. -/
theorem chunk_document_c9_nonempty (content : String) (N : Nat) :
    chunk_document content N ≠ [] ∧
    (paragraphs content = [] → splitSentences content = [content] →
      chunk_document content N = [content]) := by
  have hbs : chunk_by_sentences content N ≠ [] := by
    simp only [chunk_by_sentences]
    split
    · simp
    · next h => exact h
  constructor
  · by_cases hp : paragraphs content = []
    · have h0 : chunkLoop "\n\n" N (paragraphs content) [] 0 = [] := by rw [hp]; rfl
      simp only [chunk_document]
      rw [h0]
      simpa using hbs
    · have hnn := chunkLoop_ne_nil "\n\n" N (paragraphs content) [] 0 (Or.inr hp)
      simp only [chunk_document]
      rw [if_neg hnn]
      exact hnn
  · intro hp hs
    have h0 : chunkLoop "\n\n" N (paragraphs content) [] 0 = [] := by rw [hp]; rfl
    have h1 : chunkLoop " " N (splitSentences content) [] 0 = [content] := by
      rw [hs]
      simp only [chunkLoop]
      rw [if_neg (by simp)]
      simp [joinSep]
    simp only [chunk_document]
    rw [h0]
    simp only [chunk_by_sentences]
    rw [h1]
    simp

/-- Witness for C9 at the whitespace-only input of the spec scenario. -/
theorem chunk_document_c9_witness :
    paragraphs " " = [] ∧ splitSentences " " = [" "] ∧
    chunk_document " " 5 = [" "] ∧ chunk_document " " 5 ≠ [] :=
  ⟨by decide, by decide,
    (chunk_document_c9_nonempty " " 5).2 (by decide) (by decide),
    (chunk_document_c9_nonempty " " 5).1⟩

/-- C10: the running count sums only item lengths and ignores the
two-character blank-line separators added at join time, so two
five-character paragraphs against a budget of exactly 10 are packed into
one chunk whose real length is 12 = 10 + 2 * (2 - 1), exceeding the
target. -/
theorem chunk_document_c10_separator_overflow :
    paragraphs "aaaaa\n\nbbbbb" = ["aaaaa", "bbbbb"] ∧
    sumLens ["aaaaa", "bbbbb"] = 10 ∧
    ("aaaaa" : String).length ≤ 10 ∧ ("bbbbb" : String).length ≤ 10 ∧
    chunk_document "aaaaa\n\nbbbbb" 10 = ["aaaaa\n\nbbbbb"] ∧
    ("aaaaa\n\nbbbbb" : String).length = 10 + 2 * (2 - 1) ∧
    10 < ("aaaaa\n\nbbbbb" : String).length := by
  refine ⟨by decide, by decide, by decide, by decide, by decide, by decide, by decide⟩

theorem toNat_ofNat_valid (n : Nat) (h : n.isValidChar) : (Char.ofNat n).toNat = n := by
  simp only [Char.ofNat, dif_pos h]
  rfl

theorem utf8EncodeChar_ne_nil (c : Char) : utf8EncodeChar c ≠ [] := by
  simp only [utf8EncodeChar]
  split_ifs <;> simp

theorem utf8DecodeChar_encode (c : Char) (tail : List Nat) :
    utf8DecodeChar (utf8EncodeChar c ++ tail) = some (c, tail) := by
  have hv : Nat.isValidChar c.toNat := c.valid
  have hv' : c.toNat < 0x110000 := by
    rcases hv with h | h
    · omega
    · omega
  rcases Nat.lt_or_ge c.toNat 0x80 with h1 | h1
  · simp only [utf8EncodeChar, if_pos h1, List.cons_append, List.nil_append,
      utf8DecodeChar, if_pos h1, Char.ofNat_toNat]
  · rcases Nat.lt_or_ge c.toNat 0x800 with h2 | h2
    · have e1 : ¬ (0xC0 + c.toNat / 0x40 < 0x80) := by omega
      have e2 : ¬ (0xC0 + c.toNat / 0x40 < 0xC2) := by omega
      have e3 : 0xC0 + c.toNat / 0x40 < 0xE0 := by omega
      have e4 : isContByte (0x80 + c.toNat % 0x40) = true := by
        simp only [isContByte, Bool.and_eq_true, decide_eq_true_eq]
        omega
      have e5 : (0xC0 + c.toNat / 0x40 - 0xC0) * 0x40 + (0x80 + c.toNat % 0x40 - 0x80)
          = c.toNat := by omega
      simp only [utf8EncodeChar, if_neg (Nat.not_lt.mpr h1), if_pos h2,
        List.cons_append, List.nil_append, utf8DecodeChar, if_neg e1, if_neg e2,
        if_pos e3, e4, if_true, e5, Char.ofNat_toNat]
    · rcases Nat.lt_or_ge c.toNat 0x10000 with h3 | h3
      · have e1 : ¬ (0xE0 + c.toNat / 0x1000 < 0x80) := by omega
        have e2 : ¬ (0xE0 + c.toNat / 0x1000 < 0xC2) := by omega
        have e3 : ¬ (0xE0 + c.toNat / 0x1000 < 0xE0) := by omega
        have e4 : 0xE0 + c.toNat / 0x1000 < 0xF0 := by omega
        have e5 : isContByte (0x80 + c.toNat / 0x40 % 0x40) = true := by
          simp only [isContByte, Bool.and_eq_true, decide_eq_true_eq]
          omega
        have e6 : isContByte (0x80 + c.toNat % 0x40) = true := by
          simp only [isContByte, Bool.and_eq_true, decide_eq_true_eq]
          omega
        have e7 : (0xE0 + c.toNat / 0x1000 - 0xE0) * 0x1000 +
            (0x80 + c.toNat / 0x40 % 0x40 - 0x80) * 0x40 +
            (0x80 + c.toNat % 0x40 - 0x80) = c.toNat := by omega
        have e8 : ¬ (c.toNat < 0x800) := by omega
        have e9 : ¬ (0xD800 ≤ c.toNat ∧ c.toNat < 0xE000) := by
          rcases hv with h | h
          · omega
          · omega
        simp only [utf8EncodeChar, if_neg (Nat.not_lt.mpr h1), if_neg (Nat.not_lt.mpr h2),
          if_pos h3, List.cons_append, List.nil_append, utf8DecodeChar, if_neg e1,
          if_neg e2, if_neg e3, if_pos e4, e5, e6, Bool.and_self, if_true, e7,
          if_neg e8, if_neg e9, Char.ofNat_toNat]
      · have e1 : ¬ (0xF0 + c.toNat / 0x40000 < 0x80) := by omega
        have e2 : ¬ (0xF0 + c.toNat / 0x40000 < 0xC2) := by omega
        have e3 : ¬ (0xF0 + c.toNat / 0x40000 < 0xE0) := by omega
        have e4 : ¬ (0xF0 + c.toNat / 0x40000 < 0xF0) := by omega
        have e5 : 0xF0 + c.toNat / 0x40000 < 0xF5 := by omega
        have e6 : isContByte (0x80 + c.toNat / 0x1000 % 0x40) = true := by
          simp only [isContByte, Bool.and_eq_true, decide_eq_true_eq]
          omega
        have e7 : isContByte (0x80 + c.toNat / 0x40 % 0x40) = true := by
          simp only [isContByte, Bool.and_eq_true, decide_eq_true_eq]
          omega
        have e8 : isContByte (0x80 + c.toNat % 0x40) = true := by
          simp only [isContByte, Bool.and_eq_true, decide_eq_true_eq]
          omega
        have e9 : (0xF0 + c.toNat / 0x40000 - 0xF0) * 0x40000 +
            (0x80 + c.toNat / 0x1000 % 0x40 - 0x80) * 0x1000 +
            (0x80 + c.toNat / 0x40 % 0x40 - 0x80) * 0x40 +
            (0x80 + c.toNat % 0x40 - 0x80) = c.toNat := by omega
        have e10 : ¬ (c.toNat < 0x10000) := by omega
        have e11 : ¬ (0x110000 ≤ c.toNat) := by omega
        simp only [utf8EncodeChar, if_neg (Nat.not_lt.mpr h1), if_neg (Nat.not_lt.mpr h2),
          if_neg (Nat.not_lt.mpr h3), List.cons_append, List.nil_append, utf8DecodeChar,
          if_neg e1, if_neg e2, if_neg e3, if_neg e4, if_pos e5, e6, e7, e8,
          Bool.and_self, if_true, e9, if_neg e10, if_neg e11, Char.ofNat_toNat]

theorem utf8DecodeList_encode : ∀ (cs : List Char) (fuel : Nat),
    (utf8EncodeList cs).length ≤ fuel →
    utf8DecodeList fuel (utf8EncodeList cs) = some cs := by
  intro cs
  induction cs with
  | nil =>
    intro fuel _
    cases fuel <;> simp [utf8EncodeList, utf8DecodeList]
  | cons c cs ih =>
    intro fuel hlen
    have hne : utf8EncodeChar c ++ utf8EncodeList cs ≠ [] := by
      simp [List.append_eq_nil, utf8EncodeChar_ne_nil c]
    have hpos : 0 < (utf8EncodeChar c).length :=
      List.length_pos.mpr (utf8EncodeChar_ne_nil c)
    cases fuel with
    | zero =>
      exfalso
      simp only [utf8EncodeList, List.length_append] at hlen
      omega
    | succ fuel =>
      simp only [utf8EncodeList] at hlen ⊢
      simp only [utf8DecodeList, if_neg hne, utf8DecodeChar_encode c _]
      rw [ih fuel (by simp only [List.length_append] at hlen; omega)]

theorem utf8Decode_encode (s : String) : utf8Decode (utf8Encode s) = some s := by
  simp only [utf8Decode, utf8Encode]
  rw [utf8DecodeList_encode s.data (utf8EncodeList s.data).length (Nat.le_refl _)]
  rfl

theorem utf8DecodeChar_sound (l : List Nat) (c : Char) (rest : List Nat)
    (h : utf8DecodeChar l = some (c, rest)) : utf8EncodeChar c ++ rest = l := by
  match l with
  | [] => simp [utf8DecodeChar] at h
  | b1 :: bs =>
    simp only [utf8DecodeChar] at h
    by_cases h1 : b1 < 0x80
    · rw [if_pos h1] at h
      simp only [Option.some.injEq, Prod.mk.injEq] at h
      obtain ⟨hc, hr⟩ := h
      subst hc
      subst hr
      have hval : (Char.ofNat b1).toNat = b1 := toNat_ofNat_valid b1 (Or.inl (by omega))
      simp only [utf8EncodeChar, hval, if_pos h1, List.cons_append, List.nil_append]
    · rw [if_neg h1] at h
      by_cases h2 : b1 < 0xC2
      · rw [if_pos h2] at h
        simp at h
      · rw [if_neg h2] at h
        by_cases h3 : b1 < 0xE0
        · rw [if_pos h3] at h
          match bs with
          | [] => simp at h
          | b2 :: bs2 =>
            dsimp only at h
            by_cases hc2 : isContByte b2
            · rw [if_pos hc2] at h
              simp only [Option.some.injEq, Prod.mk.injEq] at h
              obtain ⟨hc, hr⟩ := h
              subst hc
              subst hr
              simp only [isContByte, Bool.and_eq_true, decide_eq_true_eq] at hc2
              set n := (b1 - 0xC0) * 0x40 + (b2 - 0x80) with hn
              have hval : (Char.ofNat n).toNat = n :=
                toNat_ofNat_valid n (Or.inl (by omega))
              simp only [utf8EncodeChar, hval, if_neg (show ¬ n < 0x80 by omega),
                if_pos (show n < 0x800 by omega), List.cons_append, List.nil_append,
                List.cons.injEq]
              refine ⟨by omega, by omega, trivial⟩
            · rw [if_neg hc2] at h
              simp at h
        · rw [if_neg h3] at h
          by_cases h4 : b1 < 0xF0
          · rw [if_pos h4] at h
            match bs with
            | [] => simp at h
            | [b2] => simp at h
            | b2 :: b3 :: bs3 =>
              dsimp only at h
              by_cases hc23 : isContByte b2 && isContByte b3
              · rw [if_pos hc23] at h
                simp only [isContByte, Bool.and_eq_true, decide_eq_true_eq] at hc23
                set n := (b1 - 0xE0) * 0x1000 + (b2 - 0x80) * 0x40 + (b3 - 0x80) with hn
                by_cases h5 : n < 0x800
                · rw [if_pos h5] at h
                  simp at h
                · rw [if_neg h5] at h
                  by_cases h6 : 0xD800 ≤ n ∧ n < 0xE000
                  · rw [if_pos h6] at h
                    simp at h
                  · rw [if_neg h6] at h
                    simp only [Option.some.injEq, Prod.mk.injEq] at h
                    obtain ⟨hc, hr⟩ := h
                    subst hc
                    subst hr
                    have hval : (Char.ofNat n).toNat = n :=
                      toNat_ofNat_valid n (by
                        show n < 55296 ∨ 57343 < n ∧ n < 1114112
                        omega)
                    simp only [utf8EncodeChar, hval, if_neg (show ¬ n < 0x80 by omega),
                      if_neg h5, if_pos (show n < 0x10000 by omega), List.cons_append,
                      List.nil_append, List.cons.injEq]
                    refine ⟨by omega, by omega, by omega, trivial⟩
              · rw [if_neg hc23] at h
                simp at h
          · rw [if_neg h4] at h
            by_cases h5 : b1 < 0xF5
            · rw [if_pos h5] at h
              match bs with
              | [] => simp at h
              | [b2] => simp at h
              | [b2, b3] => simp at h
              | b2 :: b3 :: b4 :: bs4 =>
                dsimp only at h
                by_cases hc234 : isContByte b2 && isContByte b3 && isContByte b4
                · rw [if_pos hc234] at h
                  simp only [isContByte, Bool.and_eq_true, decide_eq_true_eq] at hc234
                  set n := (b1 - 0xF0) * 0x40000 + (b2 - 0x80) * 0x1000 +
                    (b3 - 0x80) * 0x40 + (b4 - 0x80) with hn
                  by_cases h6 : n < 0x10000
                  · rw [if_pos h6] at h
                    simp at h
                  · rw [if_neg h6] at h
                    by_cases h7 : 0x110000 ≤ n
                    · rw [if_pos h7] at h
                      simp at h
                    · rw [if_neg h7] at h
                      simp only [Option.some.injEq, Prod.mk.injEq] at h
                      obtain ⟨hc, hr⟩ := h
                      subst hc
                      subst hr
                      have hval : (Char.ofNat n).toNat = n :=
                        toNat_ofNat_valid n (by
                          show n < 55296 ∨ 57343 < n ∧ n < 1114112
                          omega)
                      simp only [utf8EncodeChar, hval, if_neg (show ¬ n < 0x80 by omega),
                        if_neg (show ¬ n < 0x800 by omega), if_neg h6, List.cons_append,
                        List.nil_append, List.cons.injEq]
                      refine ⟨by omega, by omega, by omega, by omega, trivial⟩
                · rw [if_neg hc234] at h
                  simp at h
            · rw [if_neg h5] at h
              simp at h

theorem utf8DecodeList_sound : ∀ (fuel : Nat) (l : List Nat) (cs : List Char),
    utf8DecodeList fuel l = some cs → utf8EncodeList cs = l := by
  intro fuel
  induction fuel with
  | zero =>
    intro l cs h
    cases l with
    | nil =>
      simp [utf8DecodeList] at h
      subst h
      rfl
    | cons b bs =>
      simp [utf8DecodeList] at h
  | succ fuel ih =>
    intro l cs h
    simp only [utf8DecodeList] at h
    split_ifs at h with hl
    · simp only [Option.some.injEq] at h
      subst h
      simp [utf8EncodeList, hl]
    · cases hdc : utf8DecodeChar l with
      | none => rw [hdc] at h; simp at h
      | some pr =>
        obtain ⟨c, rest⟩ := pr
        rw [hdc] at h
        dsimp only at h
        cases hdl : utf8DecodeList fuel rest with
        | none => rw [hdl] at h; simp at h
        | some cs2 =>
          rw [hdl] at h
          dsimp only at h
          simp only [Option.some.injEq] at h
          subst h
          simp only [utf8EncodeList, ih rest cs2 hdl, utf8DecodeChar_sound l c rest hdc]

theorem utf8Decode_sound (b : List Nat) (s : String) (h : utf8Decode b = some s) :
    utf8Encode s = b := by
  simp only [utf8Decode] at h
  cases hdl : utf8DecodeList b.length b with
  | none => rw [hdl] at h; simp at h
  | some cs =>
    rw [hdl] at h
    simp only [Option.map_some', Option.some.injEq] at h
    subst h
    exact utf8DecodeList_sound b.length b cs hdl

/-- C7: for every filename the router sends to the text path, upload
extraction decodes the bytes strictly as UTF-8 - the encoding of any
string decodes back to exactly that string - and fails with the
UnsupportedFormat ValueError message exactly when the bytes are not the
UTF-8 encoding of any string; there is no lossy fallback. -/
theorem extract_text_c7 (pdfExtractor : List Nat → Except String String)
    (filename : String) (hroute : pdfRoute filename = false) :
    (∀ s : String, extract_text_from_upload pdfExtractor filename (utf8Encode s) = .ok s) ∧
    (∀ content : List Nat, (∀ s : String, utf8Encode s ≠ content) →
      extract_text_from_upload pdfExtractor filename content =
        .error "File must be a text document (UTF-8 encoded) or a PDF file") := by
  constructor
  · intro s
    simp [extract_text_from_upload, hroute, decode_text_file, utf8Decode_encode s]
  · intro content hna
    have hdec : utf8Decode content = none := by
      cases hd : utf8Decode content with
      | none => rfl
      | some s => exact absurd (utf8Decode_sound content s hd) (hna s)
    simp [extract_text_from_upload, hroute, decode_text_file, hdec]

/-- Witness for C7 at a text filename, a two-byte-encoded string, and an
invalid byte. -/
theorem extract_text_c7_witness :
    pdfRoute "notes.txt" = false ∧
    extract_text_from_upload (fun _ => .error "pdf") "notes.txt" (utf8Encode "café") =
      .ok "café" ∧
    extract_text_from_upload (fun _ => .error "pdf") "notes.txt" [0xFF] =
      .error "File must be a text document (UTF-8 encoded) or a PDF file" := by
  refine ⟨rfl, ?_, ?_⟩
  · exact (extract_text_c7 (fun _ => .error "pdf") "notes.txt" rfl).1 "café"
  · refine (extract_text_c7 (fun _ => .error "pdf") "notes.txt" rfl).2 [0xFF] ?_
    intro s hs
    have h1 := utf8Decode_encode s
    rw [hs] at h1
    rw [show utf8Decode [0xFF] = none from rfl] at h1
    exact Option.noConfusion h1

/-- C4: the claim states that every flattened metadata value is a string,
with a single-element value list unwrapped and a multi-element list
comma-joined. The code contradicts the always-a-string part (and its own
docstring and Dict annotation of string values): a single-element value
list is unwrapped without stringification, so a non-string element such
as the number 5 is stored as-is; the multi-element join and the spec
scenario of a single string value behave as claimed. -/
theorem flatten_metadata_c4_bare_single_value :
    flatten_metadata (Json.arr [Json.obj [("key", Json.str "k"),
        ("value", Json.arr [Json.num 5])]])
      = .ok [(Json.str "k", Json.num 5)] ∧
    isJsonString (Json.num 5) = false ∧
    flatten_metadata (Json.arr [Json.obj [("key", Json.str "name"),
        ("value", Json.arr [Json.str "doc.pdf"])]])
      = .ok [(Json.str "name", Json.str "doc.pdf")] ∧
    flatten_metadata (Json.arr [Json.obj [("key", Json.str "k"),
        ("value", Json.arr [Json.str "a", Json.str "b"])]])
      = .ok [(Json.str "k", Json.str "a, b")] :=
  ⟨rfl, rfl, rfl, rfl⟩

/-- C5 counterexample: the claim states the normalizer never raises on
any input. A mapping whose results key holds a number makes the source
iterate over an int, which raises TypeError; the embedding returns the
corresponding error instead of a chunk list. -/
theorem extract_chunks_c5_counterexample :
    extract_chunks_from_response [("results", Json.num 0)] = .error "TypeError" := rfl

/-- C5 (amended): for every mapping that lacks the top-level results key
the normalizer returns the empty chunk list without raising, and a chunk
missing the searchScores to aggregatedScore to value path - at any of the
three levels - gets score 0.0; however the normalizer is not exception-free on
present but wrongly-typed values. -/
theorem extract_chunks_c5_missing_keys (d : List (String × Json))
    (hd : lookupKey d "results" = none) :
    extract_chunks_from_response d = .ok [] ∧
    extract_score (Json.obj []) = .ok (Json.num 0) ∧
    extract_score (Json.obj [("searchScores", Json.obj [])]) = .ok (Json.num 0) ∧
    extract_score (Json.obj [("searchScores",
      Json.obj [("aggregatedScore", Json.obj [])])]) = .ok (Json.num 0) ∧
    (∀ kvs : List (String × Json), lookupKey kvs "searchScores" = none →
      extract_score (Json.obj kvs) = .ok (Json.num 0)) := by
  refine ⟨?_, rfl, rfl, rfl, ?_⟩
  · simp [extract_chunks_from_response, hd]
  · intro kvs h
    simp only [extract_score, pyGet, h]
    rfl

/-- Witness for C5 at a concrete mapping without results and a concrete
chunk without searchScores. -/
theorem extract_chunks_c5_witness :
    lookupKey [("other", Json.null)] "results" = none ∧
    extract_chunks_from_response [("other", Json.null)] = .ok [] ∧
    extract_score (Json.obj [("x", Json.num 1)]) = .ok (Json.num 0) := by
  have h := extract_chunks_c5_missing_keys [("other", Json.null)] rfl
  exact ⟨rfl, h.1, h.2.2.2.2 [("x", Json.num 1)] rfl⟩

theorem mapTransform_chunkEntries : ∀ (cs : List String) (idx : Nat),
    mapTransform (chunkEntries cs idx) = .ok (expectedRoundTrip cs idx) := by
  intro cs
  induction cs with
  | nil => intro idx; rfl
  | cons c cs ih =>
    intro idx
    simp only [chunkEntries, mapTransform]
    rw [show transform_chunk (Json.obj [("content", Json.str c),
      ("metadata", Json.arr [Json.obj [("key", Json.str "chunk_index"),
        ("value", Json.arr [Json.str (toString idx)])]])])
      = .ok ⟨Json.str c, Json.num 0,
          [(Json.str "chunk_index", Json.str (toString idx))]⟩ from rfl]
    rw [ih (idx + 1)]
    rfl

theorem expectedRoundTrip_contents : ∀ (cs : List String) (idx : Nat),
    (expectedRoundTrip cs idx).map NormalizedChunk.content = cs.map Json.str := by
  intro cs
  induction cs with
  | nil => intro idx; rfl
  | cons c cs ih =>
    intro idx
    simp [expectedRoundTrip, ih]

theorem expectedRoundTrip_metadata : ∀ (cs : List String) (idx : Nat),
    (expectedRoundTrip cs idx).map NormalizedChunk.metadata =
      (List.range cs.length).map
        (fun i => [(Json.str "chunk_index", Json.str (toString (idx + i)))]) := by
  intro cs
  induction cs with
  | nil => intro idx; rfl
  | cons c cs ih =>
    intro idx
    simp only [expectedRoundTrip, List.map_cons, List.length_cons,
      List.range_succ_eq_map, List.map_map]
    refine congrArg₂ List.cons rfl ?_
    rw [ih (idx + 1)]
    congr 1
    funext i
    simp only [Function.comp_apply]
    have h : idx + 1 + i = idx + (i + 1) := by omega
    rw [h]

/-- C6: building the ingest payload and normalizing a synthetic search
result wrapping its documents yields chunks whose contents equal the
input chunks in order and whose chunk_index metadata is the string of
each 0-based position, contiguous from 0. -/
theorem round_trip_c6 (name : String) (chunks : List String) :
    extract_chunks_from_response
        (syntheticSearchResult (build_document_payload name chunks none))
      = .ok (expectedRoundTrip chunks 0) ∧
    (expectedRoundTrip chunks 0).map NormalizedChunk.content = chunks.map Json.str ∧
    (expectedRoundTrip chunks 0).map NormalizedChunk.metadata =
      (List.range chunks.length).map
        (fun i => [(Json.str "chunk_index", Json.str (toString i))]) := by
  refine ⟨?_, expectedRoundTrip_contents chunks 0, ?_⟩
  · have hraw : extract_chunks_from_response
        (syntheticSearchResult (build_document_payload name chunks none))
        = mapTransform (((chunkEntries chunks 0 ++ []) ++ []) ++ []) := rfl
    rw [hraw, List.append_nil, List.append_nil, List.append_nil]
    exact mapTransform_chunkEntries chunks 0
  · simpa using expectedRoundTrip_metadata chunks 0

theorem contextBlocks_eq_spec : ∀ (cs : List NormalizedChunk) (idx : Nat),
    contextBlocks cs idx = specNumberedBlocks (idx + 1) cs := by
  intro cs
  induction cs with
  | nil => intro idx; rfl
  | cons c cs ih =>
    intro idx
    simp only [contextBlocks, specNumberedBlocks, ih (idx + 1)]

set_option maxRecDepth 20000 in
theorem formatContextQuery_template (ctx q : String) :
    formatContextQuery DOCUMENT_QA_SYSTEM_PROMPT ctx q =
      promptPre ++ ctx ++ promptMid ++ q ++ promptPost := by
  have h1 : pySplit DOCUMENT_QA_SYSTEM_PROMPT "{context}" =
      [promptPre, promptMid ++ "{query}" ++ promptPost] := by decide
  have h2 : pySplit (promptMid ++ "{query}" ++ promptPost) "{query}" =
      [promptMid, promptPost] := by decide
  simp only [formatContextQuery, h1, h2]

/-- C8: the prompt composer renders the i-th chunk as a block numbered
i plus one holding its content, joins the blocks with blank lines in the
exact supplied order, and splices the rendered context and the raw query
into the fixed instruction template. -/
theorem format_prompt_c8 (chunks : List NormalizedChunk) (query : String) :
    format_document_qa_prompt chunks query =
      promptPre ++ joinSep "\n\n" (specNumberedBlocks 1 chunks) ++
        promptMid ++ query ++ promptPost := by
  simp only [format_document_qa_prompt, formatContextQuery_template, contextBlocks_eq_spec]

end DocChat
